import Mathlib

/-!
# Verification of the Firefox remote-debugging adapter

Shallow embedding of the core logic of the `vscode-ff-debug` repository:
the framed socket transport (`FirefoxProtocol` in `ffUrlHelper.ts` /
`ffProtocol.ts`), the actor request queue (`Actor` in the session
implementation), the one-shot-actor helpers and breakpoint operations
(`ContextActor`, `SourceActor`, `Breakpoint`), grip formatting
(`ContextActor.formatGrip` / `formatReturnValue`), the `newSource`
notification handler together with the URL helpers, and the
`disconnectRequest` handler of `FirefoxDebugSession`.

Byte buffers are modeled as `List Nat` (one entry per byte); message
bodies are modeled as their UTF-8 JSON byte sequences (`JSON.stringify`
/ `JSON.parse` and UTF-8 coding are external, mutually inverse
collaborators, so framing facts are stated byte-for-byte, as the spec
itself does).
-/

/-! ## Framed transport: `FirefoxProtocol.parseFirefoxPacket` and `setupSocket`

Source (`ffProtocol.ts`):

```
private parseFirefoxPacket(buffer, pos) {
  var i = pos;
  while (i < buffer.length && buffer[i] >= 0x30 && buffer[i] <= 0x39) i++;
  if (i >= buffer.length) return null;               // need headers
  if (i === pos || buffer[i] !== 0x3a) throw new Error('Invalid packet header');
  var contentLength = +buffer.toString('utf8', pos, i);
  i++;
  if (i + contentLength > buffer.length) return null; // need entire packet data
  var body = buffer.toString('utf8', i, i + contentLength);
  return { lastPos: i + contentLength, body: body === '' ? undefined : JSON.parse(body) };
}
```

The scan works on the suffix `buffer.drop pos`; `parsePacketCore`
expresses the routine at relative positions, `parseFirefoxPacket` is
the absolute-position wrapper (the two presentations agree index by
index: `i` in the source corresponds to `pos + k` here).
-/

/-- Is a byte an ASCII decimal digit (`0x30`–`0x39`)? -/
def isDigitByte (b : Nat) : Bool := 0x30 ≤ b && b ≤ 0x39

/-- Length of the initial run of ASCII digits (the `while` scan of
`parseFirefoxPacket`). -/
def digitRun : List Nat → Nat
  | [] => 0
  | b :: rest => if isDigitByte b then digitRun rest + 1 else 0

/-- Decimal value of a run of ASCII digit bytes
(`+buffer.toString('utf8', pos, i)` on an all-digit slice). -/
def decValue (ds : List Nat) : Nat :=
  ds.foldl (fun acc b => acc * 10 + (b - 0x30)) 0

/-- Result of one `parseFirefoxPacket` attempt: `needMore` is the
source's `null` return, `fatal` its `throw new Error('Invalid packet
header')`, and `ok consumed body` its `{lastPos, body}` object (with
`consumed`/`lastPos` relative to the scan start, and `body = none`
for the empty body string, the source's `undefined`). -/
inductive ParseCore where
  | needMore : ParseCore
  | fatal : ParseCore
  | ok (consumed : Nat) (body : Option (List Nat)) : ParseCore
deriving DecidableEq, Repr

/-- `parseFirefoxPacket` at relative positions: the argument is
`buffer.drop pos`, and `ok c b` means `lastPos = pos + c`.  Writing
`k` for `digitRun tail` (the final value of the source's scan index
`i`, relative to `pos`): the first `if` is `i >= buffer.length`, the
second is `i === pos || buffer[i] !== 0x3a`, the third is
`i + contentLength > buffer.length` (after `i++`), and the `ok` case
slices `contentLength` body bytes and maps the empty body to `none`. -/
def parsePacketCore (tail : List Nat) : ParseCore :=
  if tail.length ≤ digitRun tail then
    ParseCore.needMore
  else if digitRun tail = 0 ∨ ¬ tail.getD (digitRun tail) 0 = 0x3A then
    ParseCore.fatal
  else if tail.length < digitRun tail + 1 + decValue (tail.take (digitRun tail)) then
    ParseCore.needMore
  else
    ParseCore.ok (digitRun tail + 1 + decValue (tail.take (digitRun tail)))
      (if ((tail.drop (digitRun tail + 1)).take (decValue (tail.take (digitRun tail)))).isEmpty
       then none
       else some ((tail.drop (digitRun tail + 1)).take (decValue (tail.take (digitRun tail)))))

/-- Absolute-position result of `parseFirefoxPacket`. -/
inductive ParseResult where
  | needMore : ParseResult
  | fatal : ParseResult
  | ok (lastPos : Nat) (body : Option (List Nat)) : ParseResult
deriving DecidableEq, Repr

/-- `FirefoxProtocol.parseFirefoxPacket(buffer, pos)`. -/
def parseFirefoxPacket (buffer : List Nat) (pos : Nat) : ParseResult :=
  match parsePacketCore (buffer.drop pos) with
  | ParseCore.needMore => ParseResult.needMore
  | ParseCore.fatal => ParseResult.fatal
  | ParseCore.ok c b => ParseResult.ok (pos + c) b

/-- `FirefoxProtocol.sendResponse`: outbound framing of a message body
(decimal byte length, `':'`, body bytes):
`Buffer.concat([new Buffer(buffer.length + ':'), buffer])`. -/
def decDigits (n : Nat) : List Nat :=
  if h : n < 10 then [0x30 + n]
  else decDigits (n / 10) ++ [0x30 + n % 10]
decreasing_by exact Nat.div_lt_self (by omega) (by omega)

/-- The byte sequence written by `sendResponse` for a body. -/
def sendResponseData (body : List Nat) : List Nat :=
  decDigits body.length ++ 0x3A :: body

theorem parsePacketCore_ok_pos {tail : List Nat} {c : Nat} {b : Option (List Nat)}
    (h : parsePacketCore tail = ParseCore.ok c b) : 0 < c ∧ c ≤ tail.length := by
  unfold parsePacketCore at h
  split at h
  · exact absurd h (by simp)
  · split at h
    · exact absurd h (by simp)
    · split at h
      · exact absurd h (by simp)
      · rename_i h1 h2 h3
        injection h with hc hb
        omega

theorem parsePacketCore_ok_digits {tail : List Nat} {c : Nat} {b : Option (List Nat)}
    (h : parsePacketCore tail = ParseCore.ok c b) :
    c = digitRun tail + 1 + decValue (tail.take (digitRun tail)) ∧ 0 < digitRun tail := by
  unfold parsePacketCore at h
  split at h
  · exact absurd h (by simp)
  · split at h
    · exact absurd h (by simp)
    · split at h
      · exact absurd h (by simp)
      · rename_i h1 h2 h3
        injection h with hc hb
        constructor
        · omega
        · rcases not_or.mp h2 with ⟨hk, _⟩
          omega

theorem parseFirefoxPacket_ok_pos {buffer : List Nat} {pos lastPos : Nat}
    {b : Option (List Nat)} (h : parseFirefoxPacket buffer pos = ParseResult.ok lastPos b) :
    pos < lastPos ∧ lastPos ≤ buffer.length ∨ pos < lastPos := by
  unfold parseFirefoxPacket at h
  split at h
  · exact absurd h (by simp)
  · exact absurd h (by simp)
  · rename_i c b' hc
    injection h with h1 h2
    have := parsePacketCore_ok_pos hc
    right
    omega

/-- The `client.on('data', ...)` loop of `FirefoxProtocol.setupSocket`,
started at position `pos` of the accumulated buffer
(`Buffer.concat([ffBuffer, data])`): dispatches the bodies of the
complete frames in order (`this.onExecuteCommand(parseResult.body)`),
and returns the retained bytes (the new `ffBuffer`:
`newBuffer.slice(pos)` when the loop stops inside the buffer, empty
otherwise).  A fatal header error propagates (`Except.error`). -/
def processFrom (buffer : List Nat) (pos : Nat) :
    Except Unit (List (Option (List Nat)) × List Nat) :=
  if h : pos < buffer.length then
    match hp : parseFirefoxPacket buffer pos with
    | ParseResult.needMore => Except.ok ([], buffer.drop pos)
    | ParseResult.fatal => Except.error ()
    | ParseResult.ok lastPos body =>
      match processFrom buffer lastPos with
      | Except.ok (bodies, rest) => Except.ok (body :: bodies, rest)
      | Except.error e => Except.error e
  else
    Except.ok ([], [])
termination_by buffer.length - pos
decreasing_by
  have := parseFirefoxPacket_ok_pos hp
  omega

/-- A single `data` event: the incoming chunk is appended to the held
buffer and the parse loop runs from position `0`. -/
def handleData (ffBuffer data : List Nat) :
    Except Unit (List (Option (List Nat)) × List Nat) :=
  processFrom (ffBuffer ++ data) 0

/-! ### Arithmetic facts about the decimal length header -/

theorem decDigits_ne_nil (n : Nat) : decDigits n ≠ [] := by
  rw [decDigits]
  split <;> simp

theorem decDigits_digit (n : Nat) : ∀ b ∈ decDigits n, isDigitByte b = true := by
  induction n using Nat.strong_induction_on with
  | _ n ih =>
    rw [decDigits]
    split
    · rename_i h
      intro b hb
      simp only [List.mem_singleton] at hb
      subst hb
      simp only [isDigitByte, Bool.and_eq_true, decide_eq_true_eq]
      omega
    · rename_i h
      intro b hb
      rcases List.mem_append.mp hb with h1 | h1
      · exact ih (n / 10) (Nat.div_lt_self (by omega) (by omega)) b h1
      · simp only [List.mem_singleton] at h1
        subst h1
        have : n % 10 < 10 := Nat.mod_lt _ (by omega)
        simp only [isDigitByte, Bool.and_eq_true, decide_eq_true_eq]
        omega

theorem decValue_append_digit (l : List Nat) (x : Nat) :
    decValue (l ++ [x]) = decValue l * 10 + (x - 0x30) := by
  simp [decValue, List.foldl_append]

theorem decValue_decDigits (n : Nat) : decValue (decDigits n) = n := by
  induction n using Nat.strong_induction_on with
  | _ n ih =>
    rw [decDigits]
    split
    · rename_i h
      simp only [decValue, List.foldl_cons, List.foldl_nil]
      omega
    · rename_i h
      rw [decValue_append_digit, ih (n / 10) (Nat.div_lt_self (by omega) (by omega))]
      omega

/-! ### The digit scan on framed data -/

theorem digitRun_append_stop (ds t : List Nat) (x : Nat)
    (hds : ∀ b ∈ ds, isDigitByte b = true) (hx : isDigitByte x = false) :
    digitRun (ds ++ x :: t) = ds.length := by
  induction ds with
  | nil => simp [digitRun, hx]
  | cons d ds ih =>
    have hd : isDigitByte d = true := hds d (by simp)
    have hrec := ih (fun b hb => hds b (by simp [hb]))
    simp only [List.cons_append, digitRun, hd, if_true, List.length_cons, List.append_eq]
    omega

theorem getD_append_cons (ds : List Nat) (x : Nat) (t : List Nat) :
    (ds ++ x :: t).getD ds.length 0 = x := by
  induction ds with
  | nil => rfl
  | cons d ds ih => simpa using ih

theorem getElem?_append_cons (ds : List Nat) (x : Nat) (t : List Nat) :
    (ds ++ x :: t)[ds.length]? = some x := by
  induction ds with
  | nil => simp
  | cons d ds ih => simpa using ih

/-- Parsing at the start of a serialized frame (followed by arbitrary
further bytes) consumes exactly the frame and returns its body
(`none` for an empty body). -/
theorem parsePacketCore_frame (body rest : List Nat) :
    parsePacketCore (sendResponseData body ++ rest) =
      ParseCore.ok (sendResponseData body).length
        (if body.isEmpty then none else some body) := by
  have harr : sendResponseData body ++ rest
      = decDigits body.length ++ 0x3A :: (body ++ rest) := by
    simp [sendResponseData]
  have hmpos : 0 < (decDigits body.length).length :=
    List.length_pos.mpr (decDigits_ne_nil _)
  have hdr : digitRun (sendResponseData body ++ rest) = (decDigits body.length).length := by
    rw [harr]
    exact digitRun_append_stop _ _ _ (decDigits_digit _) (by decide)
  have hlen : (sendResponseData body ++ rest).length
      = (decDigits body.length).length + 1 + (body.length + rest.length) := by
    rw [harr]; simp [List.length_append]; omega
  have htake : (sendResponseData body ++ rest).take ((decDigits body.length).length)
      = decDigits body.length := by
    rw [harr]; exact List.take_left _ _
  have hget : (sendResponseData body ++ rest).getD ((decDigits body.length).length) 0 = 0x3A := by
    rw [harr]; exact getD_append_cons _ _ _
  have hdrop : (sendResponseData body ++ rest).drop ((decDigits body.length).length + 1)
      = body ++ rest := by
    rw [harr, ← List.drop_drop, List.drop_left]
    rfl
  have hout : (sendResponseData body).length = (decDigits body.length).length + 1 + body.length := by
    simp [sendResponseData]
    omega
  unfold parsePacketCore
  rw [hdr, htake, decValue_decDigits, hget, hdrop, hlen, hout]
  have hc1 : ¬ ((decDigits body.length).length + 1 + (body.length + rest.length)
      ≤ (decDigits body.length).length) := by omega
  have hc2 : ¬ ((decDigits body.length).length = 0 ∨ ¬ (0x3A : Nat) = 0x3A) := by
    push_neg
    exact ⟨by omega, rfl⟩
  have hc3 : ¬ ((decDigits body.length).length + 1 + (body.length + rest.length)
      < (decDigits body.length).length + 1 + body.length) := by omega
  rw [if_neg hc1, if_neg hc2, if_neg hc3, List.take_left]

/-! ### Unfolding equations for the read-callback loop -/

theorem processFrom_stop {buffer : List Nat} {pos : Nat} (h : ¬ pos < buffer.length) :
    processFrom buffer pos = Except.ok ([], []) := by
  rw [processFrom, dif_neg h]

theorem processFrom_needMore {buffer : List Nat} {pos : Nat} (h : pos < buffer.length)
    (hp : parseFirefoxPacket buffer pos = ParseResult.needMore) :
    processFrom buffer pos = Except.ok ([], buffer.drop pos) := by
  rw [processFrom, dif_pos h]
  split
  · rfl
  · rename_i heq
    exact absurd (hp ▸ heq) (by simp)
  · rename_i l b heq
    exact absurd (hp ▸ heq) (by simp)

theorem processFrom_fatal {buffer : List Nat} {pos : Nat} (h : pos < buffer.length)
    (hp : parseFirefoxPacket buffer pos = ParseResult.fatal) :
    processFrom buffer pos = Except.error () := by
  rw [processFrom, dif_pos h]
  split
  · rename_i heq
    exact absurd (hp ▸ heq) (by simp)
  · rfl
  · rename_i l b heq
    exact absurd (hp ▸ heq) (by simp)

theorem processFrom_ok {buffer : List Nat} {pos lastPos : Nat} {body : Option (List Nat)}
    (h : pos < buffer.length)
    (hp : parseFirefoxPacket buffer pos = ParseResult.ok lastPos body) :
    processFrom buffer pos =
      match processFrom buffer lastPos with
      | Except.ok (bodies, rest) => Except.ok (body :: bodies, rest)
      | Except.error e => Except.error e := by
  rw [processFrom, dif_pos h]
  split
  · rename_i heq
    exact absurd (hp ▸ heq) (by simp)
  · rename_i heq
    exact absurd (hp ▸ heq) (by simp)
  · rename_i l b heq
    rw [hp] at heq
    injection heq with h1 h2
    subst h1
    subst h2
    rfl

/-- Parsing is position-local: parsing after a fixed preceding block is
parsing the suffix, shifted. -/
theorem parseFirefoxPacket_append (a t : List Nat) (p : Nat) :
    parseFirefoxPacket (a ++ t) (a.length + p) =
      match parseFirefoxPacket t p with
      | ParseResult.needMore => ParseResult.needMore
      | ParseResult.fatal => ParseResult.fatal
      | ParseResult.ok l b => ParseResult.ok (a.length + l) b := by
  unfold parseFirefoxPacket
  have hd : (a ++ t).drop (a.length + p) = t.drop p := by
    rw [← List.drop_drop, List.drop_left]
  rw [hd]
  cases parsePacketCore (t.drop p) <;> simp [Nat.add_assoc]

/-- The loop is position-local as well: running it after a fixed
preceding block equals running it on the suffix. -/
theorem processFrom_append (a : List Nat) :
    ∀ (fuel : Nat) (t : List Nat) (p : Nat), t.length - p ≤ fuel →
      processFrom (a ++ t) (a.length + p) = processFrom t p := by
  intro fuel
  induction fuel with
  | zero =>
    intro t p hf
    have h2 : ¬ (p < t.length) := by omega
    have h1 : ¬ (a.length + p < (a ++ t).length) := by
      simp only [List.length_append]
      omega
    rw [processFrom_stop h1, processFrom_stop h2]
  | succ fuel ih =>
    intro t p hf
    by_cases hp : p < t.length
    · have h1 : a.length + p < (a ++ t).length := by
        simp only [List.length_append]
        omega
      rcases hr : parseFirefoxPacket t p with _ | _ | ⟨l, b⟩
      · have hr' : parseFirefoxPacket (a ++ t) (a.length + p) = ParseResult.needMore := by
          rw [parseFirefoxPacket_append, hr]
        rw [processFrom_needMore h1 hr', processFrom_needMore hp hr]
        have : (a ++ t).drop (a.length + p) = t.drop p := by
          rw [← List.drop_drop, List.drop_left]
        rw [this]
      · have hr' : parseFirefoxPacket (a ++ t) (a.length + p) = ParseResult.fatal := by
          rw [parseFirefoxPacket_append, hr]
        rw [processFrom_fatal h1 hr', processFrom_fatal hp hr]
      · have hr' : parseFirefoxPacket (a ++ t) (a.length + p) = ParseResult.ok (a.length + l) b := by
          rw [parseFirefoxPacket_append, hr]
        rw [processFrom_ok h1 hr', processFrom_ok hp hr]
        have hl : p < l := by
          rcases parseFirefoxPacket_ok_pos hr with h' | h' <;> omega
        rw [ih t l (by omega)]
    · have h1 : ¬ (a.length + p < (a ++ t).length) := by
        simp only [List.length_append]
        omega
      rw [processFrom_stop h1, processFrom_stop hp]

/-! ### Properties of the digit scan -/

theorem digitRun_le_length (l : List Nat) : digitRun l ≤ l.length := by
  induction l with
  | nil => simp [digitRun]
  | cons b rest ih =>
    simp only [digitRun, List.length_cons]
    split <;> omega

theorem digitRun_mem_digit (l : List Nat) :
    ∀ j, j < digitRun l → ∃ b, l[j]? = some b ∧ isDigitByte b = true := by
  induction l with
  | nil => simp [digitRun]
  | cons x rest ih =>
    intro j hj
    simp only [digitRun] at hj
    by_cases hx : isDigitByte x = true
    · rw [if_pos hx] at hj
      cases j with
      | zero => exact ⟨x, by simp, hx⟩
      | succ j =>
        rcases ih j (by omega) with ⟨b, hb1, hb2⟩
        exact ⟨b, by simpa using hb1, hb2⟩
    · rw [if_neg hx] at hj
      omega

theorem digitRun_stop_not_digit (l : List Nat) (h : digitRun l < l.length) :
    ∃ b, l[digitRun l]? = some b ∧ isDigitByte b = false := by
  induction l with
  | nil => simp at h
  | cons x rest ih =>
    by_cases hx : isDigitByte x = true
    · simp only [digitRun, hx, if_true] at h ⊢
      rcases ih (by simpa using h) with ⟨b, hb1, hb2⟩
      exact ⟨b, by simpa using hb1, hb2⟩
    · have hx' : isDigitByte x = false := Bool.eq_false_iff.mpr hx
      simp only [digitRun, hx', Bool.false_eq_true, if_false] at h ⊢
      exact ⟨x, by simp, hx'⟩

/-! ### Claim C2: complete frames dispatch in order, partial frames are retained -/

theorem parseFirefoxPacket_frame (b X : List Nat) :
    parseFirefoxPacket (sendResponseData b ++ X) 0 =
      ParseResult.ok (sendResponseData b).length (if b.isEmpty then none else some b) := by
  unfold parseFirefoxPacket
  rw [List.drop_zero, parsePacketCore_frame]
  simp

theorem sendResponseData_length_pos (b : List Nat) : 0 < (sendResponseData b).length := by
  have := List.length_pos.mpr (decDigits_ne_nil b.length)
  simp only [sendResponseData, List.length_append, List.length_cons]
  omega

theorem processFrom_frames (bs : List (List Nat)) (r : List Nat)
    (hr : parsePacketCore r = ParseCore.needMore) :
    processFrom ((bs.map sendResponseData).flatten ++ r) 0 =
      Except.ok (bs.map (fun b => if b.isEmpty then none else some b), r) := by
  induction bs with
  | nil =>
    simp only [List.map_nil, List.flatten_nil, List.nil_append]
    by_cases h0 : 0 < r.length
    · have hp : parseFirefoxPacket r 0 = ParseResult.needMore := by
        unfold parseFirefoxPacket
        rw [List.drop_zero, hr]
      rw [processFrom_needMore h0 hp, List.drop_zero]
    · have : r = [] := List.length_eq_zero.mp (by omega)
      subst this
      rw [processFrom_stop (by simp)]
  | cons b bs ih =>
    have harr : (((b :: bs).map sendResponseData).flatten ++ r)
        = sendResponseData b ++ ((bs.map sendResponseData).flatten ++ r) := by
      simp [List.append_assoc]
    rw [harr]
    have hlen : 0 < (sendResponseData b ++ ((bs.map sendResponseData).flatten ++ r)).length := by
      have := sendResponseData_length_pos b
      simp only [List.length_append]
      omega
    rw [processFrom_ok hlen (parseFirefoxPacket_frame b _)]
    have hshift := processFrom_append (sendResponseData b)
      ((bs.map sendResponseData).flatten ++ r).length
      ((bs.map sendResponseData).flatten ++ r) 0 (by omega)
    rw [Nat.add_zero] at hshift
    rw [hshift, ih]
    rfl

/-- **C2.** For every inbound data chunk, the transport's incremental
parser dispatches exactly the complete frames contained in the
accumulated buffer (held bytes plus new chunk), in buffer order, within
the single read callback; a trailing partial frame (any remainder on
which the parser reports `needMore`, i.e. an incomplete length prefix
or fewer body bytes than declared) is not dispatched and its bytes are
retained unchanged as the new held buffer.  Empty-bodied frames
dispatch as `none` (`undefined`), per the source. -/
theorem claim2_complete_frames_dispatch
    (bs : List (List Nat)) (r prev chunk : List Nat)
    (hsplit : prev ++ chunk = (bs.map sendResponseData).flatten ++ r)
    (hr : parsePacketCore r = ParseCore.needMore) :
    handleData prev chunk =
      Except.ok (bs.map (fun b => if b.isEmpty then none else some b), r) := by
  unfold handleData
  rw [hsplit]
  exact processFrom_frames bs r hr

/-! ### Claim C4: framing round trip -/

/-- **C4.** For every message body (modeled as its UTF-8 JSON byte
sequence, necessarily non-empty for a JSON-serializable value),
serializing it through the outbound framing (`sendResponse`: decimal
byte length, `':'`, body bytes) and parsing the resulting bytes with
the inbound frame parser yields the original body, byte for byte, with
the whole frame consumed. -/
theorem claim4_frame_roundtrip (body : List Nat) (hne : body ≠ []) :
    parseFirefoxPacket (sendResponseData body) 0 =
      ParseResult.ok (sendResponseData body).length (some body) := by
  have h := parseFirefoxPacket_frame body []
  rw [List.append_nil] at h
  rw [h]
  have he : body.isEmpty = false := by
    simp [List.isEmpty_iff, hne]
  rw [he]
  rfl

/-- Witness for C4 at the concrete body `[0x61, 0x62]` (`"ab"`). -/
theorem claim4_frame_roundtrip_witness :
    parseFirefoxPacket (sendResponseData [0x61, 0x62]) 0 =
      ParseResult.ok (sendResponseData [0x61, 0x62]).length (some [0x61, 0x62]) :=
  claim4_frame_roundtrip [0x61, 0x62] (by decide)

/-! ### Claim C3: framing error classification -/

theorem parsePacketCore_fatal_len {tail : List Nat}
    (h : parsePacketCore tail = ParseCore.fatal) : digitRun tail < tail.length := by
  unfold parsePacketCore at h
  split at h
  · exact absurd h (by simp)
  · rename_i h1
    omega

/-- **C3.** The frame parser's error versus wait behavior, scanning from
the current position (`parsePacketCore` works on `buffer.drop pos`):
bytes before index `digitRun tail` are all ASCII digits (fifth
conjunct); the parse is a fatal framing error exactly when the byte at
the scan stop is a non-digit other than `':'`, or is `':'` with zero
digits scanned (first conjunct), and the fatal error terminates the
read loop with an error (sixth conjunct); when the digits run to the
end of the buffer (second conjunct) or fewer than the declared number
of body bytes are available (third conjunct) the parser reports that
more data is needed, and the read loop then retains the unconsumed
bytes unchanged (seventh conjunct); a complete frame with an empty body
yields no message (`none`) rather than an error (fourth conjunct). -/
theorem claim3_framing_error_classification (tail : List Nat) :
    (parsePacketCore tail = ParseCore.fatal ↔
      ∃ b, tail[digitRun tail]? = some b ∧
        ((isDigitByte b = false ∧ b ≠ 0x3A) ∨ (b = 0x3A ∧ digitRun tail = 0))) ∧
    (tail.length ≤ digitRun tail → parsePacketCore tail = ParseCore.needMore) ∧
    (0 < digitRun tail → tail[digitRun tail]? = some 0x3A →
      tail.length < digitRun tail + 1 + decValue (tail.take (digitRun tail)) →
      parsePacketCore tail = ParseCore.needMore) ∧
    (0 < digitRun tail → tail[digitRun tail]? = some 0x3A →
      decValue (tail.take (digitRun tail)) = 0 →
      digitRun tail + 1 ≤ tail.length →
      parsePacketCore tail = ParseCore.ok (digitRun tail + 1) none) ∧
    (∀ j, j < digitRun tail → ∃ b, tail[j]? = some b ∧ isDigitByte b = true) ∧
    (∀ (buffer : List Nat) (pos : Nat), parseFirefoxPacket buffer pos = ParseResult.fatal →
      processFrom buffer pos = Except.error ()) ∧
    (∀ (buffer : List Nat) (pos : Nat), pos < buffer.length →
      parseFirefoxPacket buffer pos = ParseResult.needMore →
      processFrom buffer pos = Except.ok ([], buffer.drop pos)) := by
  refine ⟨?_, ?_, ?_, ?_, ?_, ?_, ?_⟩
  · constructor
    · intro h
      have hlt : digitRun tail < tail.length := parsePacketCore_fatal_len h
      unfold parsePacketCore at h
      rw [if_neg (by omega)] at h
      split at h
      · rename_i h2
        rcases digitRun_stop_not_digit tail hlt with ⟨b, hb, hnd⟩
        have hgd : tail.getD (digitRun tail) 0 = b := by
          rw [List.getD_eq_getElem?_getD, hb]
          rfl
        rcases h2 with hk0 | hne
        · by_cases hb58 : b = 0x3A
          · exact ⟨b, hb, Or.inr ⟨hb58, hk0⟩⟩
          · exact ⟨b, hb, Or.inl ⟨hnd, hb58⟩⟩
        · refine ⟨b, hb, Or.inl ⟨hnd, ?_⟩⟩
          intro hcontra
          exact hne (by rw [hgd, hcontra])
      · split at h
        · exact absurd h (by simp)
        · exact absurd h (by simp)
    · rintro ⟨b, hb, hcase⟩
      have hlt : digitRun tail < tail.length := by
        rcases List.getElem?_eq_some_iff.mp hb with ⟨h1, _⟩
        exact h1
      have hgd : tail.getD (digitRun tail) 0 = b := by
        rw [List.getD_eq_getElem?_getD, hb]
        rfl
      unfold parsePacketCore
      rw [if_neg (by omega)]
      rcases hcase with ⟨hnd, hne⟩ | ⟨hb58, hk0⟩
      · rw [if_pos (Or.inr (by rw [hgd]; exact hne))]
      · rw [if_pos (Or.inl hk0)]
  · intro h
    unfold parsePacketCore
    rw [if_pos h]
  · intro hk hcolon hshort
    have hlt : digitRun tail < tail.length := by
      rcases List.getElem?_eq_some_iff.mp hcolon with ⟨h1, _⟩
      exact h1
    have hgd : tail.getD (digitRun tail) 0 = 0x3A := by
      rw [List.getD_eq_getElem?_getD, hcolon]
      rfl
    unfold parsePacketCore
    rw [if_neg (by omega)]
    rw [if_neg (by push_neg; exact ⟨by omega, by rw [hgd]⟩)]
    rw [if_pos hshort]
  · intro hk hcolon hzero hlen
    have hlt : digitRun tail < tail.length := by
      rcases List.getElem?_eq_some_iff.mp hcolon with ⟨h1, _⟩
      exact h1
    have hgd : tail.getD (digitRun tail) 0 = 0x3A := by
      rw [List.getD_eq_getElem?_getD, hcolon]
      rfl
    unfold parsePacketCore
    rw [if_neg (by omega)]
    rw [if_neg (by push_neg; exact ⟨by omega, by rw [hgd]⟩)]
    rw [hzero]
    rw [if_neg (by omega)]
    simp
  · exact digitRun_mem_digit tail
  · intro buffer pos h
    have hcore : parsePacketCore (buffer.drop pos) = ParseCore.fatal := by
      unfold parseFirefoxPacket at h
      split at h
      · exact absurd h (by simp)
      · assumption
      · exact absurd h (by simp)
    have hlt : pos < buffer.length := by
      have h1 := parsePacketCore_fatal_len hcore
      have h2 : (buffer.drop pos).length = buffer.length - pos := List.length_drop _ _
      omega
    exact processFrom_fatal hlt h
  · intro buffer pos h1 h2
    exact processFrom_needMore h1 h2

/-- Witness for C3 at concrete buffers: `"a…"` (non-digit first byte) is
a fatal header error; `":"` first (zero digits before the colon) is a
fatal header error; `"12"` (digits to end of buffer) needs more data;
`"2:a"` (one of two declared body bytes) needs more data; `"0:"`
(complete empty-body frame) dispatches no message; and the fatal case
terminates the read loop with an error. -/
theorem claim3_framing_error_classification_witness :
    parsePacketCore [0x61] = ParseCore.fatal ∧
    parsePacketCore [0x3A, 0x31] = ParseCore.fatal ∧
    parsePacketCore [0x31, 0x32] = ParseCore.needMore ∧
    parsePacketCore [0x32, 0x3A, 0x61] = ParseCore.needMore ∧
    parsePacketCore [0x30, 0x3A] = ParseCore.ok 2 none ∧
    processFrom [0x61] 0 = Except.error () := by
  refine ⟨?_, ?_, ?_, ?_, ?_, ?_⟩
  · exact (claim3_framing_error_classification [0x61]).1.mpr
      ⟨0x61, by decide, Or.inl (by decide)⟩
  · exact (claim3_framing_error_classification [0x3A, 0x31]).1.mpr
      ⟨0x3A, by decide, Or.inr (by decide)⟩
  · exact (claim3_framing_error_classification [0x31, 0x32]).2.1 (by decide)
  · exact (claim3_framing_error_classification [0x32, 0x3A, 0x61]).2.2.1
      (by decide) (by decide) (by decide)
  · exact (claim3_framing_error_classification [0x30, 0x3A]).2.2.2.1
      (by decide) (by decide) (by decide) (by decide)
  · exact (claim3_framing_error_classification []).2.2.2.2.2.1 [0x61] 0 (by decide)

/-- Witness for C2: held buffer empty, one chunk `"1:a2:bc1"` holding
the complete frames `"1:a"` and `"2:bc"` followed by the partial header
`"1"`; both bodies dispatch in order and the partial byte is
retained. -/
theorem claim2_complete_frames_dispatch_witness :
    handleData [] [0x31, 0x3A, 0x61, 0x32, 0x3A, 0x62, 0x63, 0x31] =
      Except.ok ([some [0x61], some [0x62, 0x63]], [0x31]) := by
  have hsplit : ([] : List Nat) ++ [0x31, 0x3A, 0x61, 0x32, 0x3A, 0x62, 0x63, 0x31]
      = (([[0x61], [0x62, 0x63]] : List (List Nat)).map sendResponseData).flatten ++ [0x31] := by
    simp [sendResponseData, decDigits]
  have h := claim2_complete_frames_dispatch [[0x61], [0x62, 0x63]] [0x31]
      [] [0x31, 0x3A, 0x61, 0x32, 0x3A, 0x62, 0x63, 0x31] hsplit (by decide)
  exact h.trans rfl

/-! ## Actor base behavior: per-actor single-outstanding-request queue

Source (session implementation, `Actor`):

```
public sendRequest(body) {
  ...
  var request = new ActorRequest(body);
  if (this._processing) { this._queue.push(request); }
  else { this._processing = request; this.protocol.relayResponse(request.body); }
  return request.promise...;
}
private sendNext() {
  if (this._queue.length > 0) {
    this._processing = this._queue.shift();
    this.protocol.relayResponse(this._processing.body);
  } else { this._processing = null; }
}
protected processResponse(body) {
  if (!this._processing) return false;
  this._processing.respond(body); this.sendNext(); return true;
}
protected processError(body) {
  if (!this._processing) return false;
  this._processing.fail(body); this.sendNext(); return true;
}
protected processNotification(body) { return false; }
```

Requests are identified here by an opaque `Nat` tag (the tag plays no
role in the dynamics: there is no request id in the protocol, and the
model never inspects it).  The state records the in-flight request, the
waiting queue, and two observation logs: the bodies relayed to the
transport, in transmission order, and the requests settled
(resolved/rejected), in settlement order, with `true` for a response
and `false` for an error. -/

structure ActorState where
  processing : Option Nat
  queue : List Nat
  relayed : List Nat
  settled : List (Nat × Bool)
deriving DecidableEq, Repr

/-- `Actor.sendRequest`: relay immediately when idle, else enqueue. -/
def actorSendRequest (s : ActorState) (id : Nat) : ActorState :=
  match s.processing with
  | some _ => { s with queue := s.queue ++ [id] }
  | none => { s with processing := some id, relayed := s.relayed ++ [id] }

/-- `Actor.sendNext`: pop the queue head and relay it, or go idle. -/
def actorSendNext (s : ActorState) : ActorState :=
  match s.queue with
  | next :: rest =>
    { s with processing := some next, queue := rest, relayed := s.relayed ++ [next] }
  | [] => { s with processing := none }

/-- `Actor.processResponse`: resolve the in-flight request (if any),
then advance the queue; a response with nothing in flight is dropped. -/
def actorProcessResponse (s : ActorState) : ActorState :=
  match s.processing with
  | none => s
  | some id => actorSendNext { s with settled := s.settled ++ [(id, true)] }

/-- `Actor.processError`: reject the in-flight request (if any), then
advance the queue. -/
def actorProcessError (s : ActorState) : ActorState :=
  match s.processing with
  | none => s
  | some id => actorSendNext { s with settled := s.settled ++ [(id, false)] }

/-- The events an actor can see: a `sendRequest` call from the client
side, or an inbound response / error / notification dispatched by
`processCommand` (a notification never touches the request queue:
`processNotification` only returns a flag). -/
inductive ActorOp where
  | send (id : Nat)
  | response
  | error
  | notification
deriving DecidableEq, Repr

def actorStep (s : ActorState) (op : ActorOp) : ActorState :=
  match op with
  | ActorOp.send id => actorSendRequest s id
  | ActorOp.response => actorProcessResponse s
  | ActorOp.error => actorProcessError s
  | ActorOp.notification => s

def actorRun (ops : List ActorOp) : ActorState :=
  ops.foldl actorStep ⟨none, [], [], []⟩

/-- The request ids issued by a sequence of operations, in issue order. -/
def sentIds : List ActorOp → List Nat
  | [] => []
  | ActorOp.send id :: rest => id :: sentIds rest
  | _ :: rest => sentIds rest

/-- The reachable-state invariant of the request queue: everything
relayed is an initial segment of the issued requests; everything
settled is an initial segment as well; the queue holds exactly the
issued-but-not-relayed tail; and the in-flight request (when present)
is the next issued request after the settled ones. -/
def ActorInv (s : ActorState) (issued : List Nat) : Prop :=
  s.relayed = issued.take s.relayed.length ∧
  s.settled.map Prod.fst = issued.take s.settled.length ∧
  s.relayed ++ s.queue = issued ∧
  (match s.processing with
   | some id =>
     s.relayed.length = s.settled.length + 1 ∧ issued[s.settled.length]? = some id
   | none => s.relayed.length = s.settled.length ∧ s.queue = [])

theorem actorInv_init : ActorInv ⟨none, [], [], []⟩ [] := by
  refine ⟨rfl, rfl, rfl, rfl, rfl⟩

theorem actorInv_send {s : ActorState} {issued : List Nat} (h : ActorInv s issued)
    (id : Nat) : ActorInv (actorSendRequest s id) (issued ++ [id]) := by
  obtain ⟨h1, h2, h3, h4⟩ := h
  have hrel_le : s.relayed.length ≤ issued.length := by
    have := congrArg List.length h3
    simp only [List.length_append] at this
    omega
  cases hp : s.processing with
  | some pid =>
    rw [hp] at h4
    obtain ⟨h5, h6⟩ := h4
    have hset_lt : s.settled.length < issued.length := by
      rcases List.getElem?_eq_some_iff.mp h6 with ⟨hh, _⟩
      omega
    refine ⟨?_, ?_, ?_, ?_⟩
    · simp only [actorSendRequest, hp]
      rw [List.take_append_of_le_length hrel_le]
      exact h1
    · simp only [actorSendRequest, hp]
      rw [List.take_append_of_le_length (by omega)]
      exact h2
    · simp only [actorSendRequest, hp]
      rw [← List.append_assoc, h3]
    · simp only [actorSendRequest, hp]
      refine ⟨h5, ?_⟩
      rw [List.getElem?_append_left (by omega)]
      exact h6
  | none =>
    rw [hp] at h4
    obtain ⟨h5, h6⟩ := h4
    have hissued : issued = s.relayed := by
      rw [← h3, h6, List.append_nil]
    refine ⟨?_, ?_, ?_, ?_⟩
    · simp only [actorSendRequest, hp, List.length_append, List.length_cons,
        List.length_nil]
      rw [hissued]
      simp
    · simp only [actorSendRequest, hp]
      rw [List.take_append_of_le_length (by omega)]
      exact h2
    · simp only [actorSendRequest, hp, h6]
      rw [hissued]
      simp
    · simp only [actorSendRequest, hp]
      constructor
      · simp [List.length_append]
        omega
      · rw [hissued, ← h5]
        exact List.getElem?_concat_length _ _

theorem actorInv_settle {s : ActorState} {issued : List Nat} (h : ActorInv s issued)
    (flag : Bool) {id : Nat} (hp : s.processing = some id) :
    ActorInv (actorSendNext { s with settled := s.settled ++ [(id, flag)] }) issued := by
  obtain ⟨h1, h2, h3, h4⟩ := h
  rw [hp] at h4
  obtain ⟨h5, h6⟩ := h4
  have hmap : (s.settled ++ [(id, flag)]).map Prod.fst
      = issued.take (s.settled.length + 1) := by
    rw [List.take_succ, h6]
    simp [h2]
  cases hq : s.queue with
  | nil =>
    have hiss : s.relayed = issued := by
      rw [← h3, hq, List.append_nil]
    refine ⟨?_, ?_, ?_, ?_⟩
    · simpa [actorSendNext, hq] using h1
    · simpa [actorSendNext, hq, List.length_append] using hmap
    · simpa [actorSendNext, hq] using h3
    · simp only [actorSendNext, hq, List.length_append, List.length_cons,
        List.length_nil]
      exact ⟨by omega, trivial⟩
  | cons q rest =>
    have hqget : issued[s.relayed.length]? = some q := by
      rw [← h3, hq]
      exact getElem?_append_cons _ _ _
    refine ⟨?_, ?_, ?_, ?_⟩
    · simp only [actorSendNext, hq, List.length_append, List.length_cons,
        List.length_nil]
      rw [List.take_succ, hqget, h1]
      simp
    · simpa [actorSendNext, hq, List.length_append] using hmap
    · simp only [actorSendNext, hq]
      rw [List.append_assoc, List.singleton_append, ← hq]
      exact h3
    · simp only [actorSendNext, hq, List.length_append, List.length_cons,
        List.length_nil]
      refine ⟨by omega, ?_⟩
      have : s.settled.length + 1 = s.relayed.length := by omega
      rw [this]
      exact hqget

theorem actorInv_step {s : ActorState} {issued : List Nat} (h : ActorInv s issued)
    (op : ActorOp) : ActorInv (actorStep s op) (issued ++ sentIds [op]) := by
  cases op with
  | send id => exact actorInv_send h id
  | response =>
    simp only [actorStep, sentIds, List.append_nil]
    unfold actorProcessResponse
    cases hp : s.processing with
    | none => exact h
    | some id => exact actorInv_settle h true hp
  | error =>
    simp only [actorStep, sentIds, List.append_nil]
    unfold actorProcessError
    cases hp : s.processing with
    | none => exact h
    | some id => exact actorInv_settle h false hp
  | notification =>
    simpa [actorStep, sentIds] using h

theorem actorInv_run_aux :
    ∀ (ops : List ActorOp) (s : ActorState) (issued : List Nat), ActorInv s issued →
      ActorInv (ops.foldl actorStep s) (issued ++ sentIds ops) := by
  intro ops
  induction ops with
  | nil =>
    intro s issued h
    simpa [sentIds] using h
  | cons op rest ih =>
    intro s issued h
    have hstep := actorInv_step h op
    have := ih (actorStep s op) (issued ++ sentIds [op]) hstep
    cases op with
    | send id =>
      simpa [sentIds, List.foldl_cons, List.append_assoc] using this
    | response => simpa [sentIds, List.foldl_cons] using this
    | error => simpa [sentIds, List.foldl_cons] using this
    | notification => simpa [sentIds, List.foldl_cons] using this

theorem actorInv_run (ops : List ActorOp) : ActorInv (actorRun ops) (sentIds ops) := by
  have := actorInv_run_aux ops ⟨none, [], [], []⟩ [] actorInv_init
  simpa [actorRun] using this

/-- **C1.** For every actor and every sequence of operations on it
(`sendRequest` calls interleaved with inbound responses, errors and
notifications), the pending requests are settled (resolved or rejected)
strictly in the order they were issued: the settled requests are
exactly the first `k` issued requests, in issue order (first conjunct);
the bodies relayed to the transport are exactly the first `m` issued
requests, in issue order (second conjunct); a request is only settled
after it was relayed (third conjunct); and the `(n+1)`-th request's
body is never relayed before the `n`-th request has received its
response or error (fourth conjunct: at most one relayed request is
unsettled at any time).  The dynamics never inspect the request tags,
which may repeat freely — queue position is the only correlation
mechanism. -/
theorem claim1_actor_fifo (ops : List ActorOp) :
    ((actorRun ops).settled.map Prod.fst
        = (sentIds ops).take (actorRun ops).settled.length) ∧
    (actorRun ops).relayed = (sentIds ops).take (actorRun ops).relayed.length ∧
    (actorRun ops).settled.length ≤ (actorRun ops).relayed.length ∧
    (actorRun ops).relayed.length ≤ (actorRun ops).settled.length + 1 := by
  obtain ⟨h1, h2, h3, h4⟩ := actorInv_run ops
  refine ⟨h2, h1, ?_, ?_⟩
  · cases hp : (actorRun ops).processing with
    | some id =>
      rw [hp] at h4
      omega
    | none =>
      rw [hp] at h4
      omega
  · cases hp : (actorRun ops).processing with
    | some id =>
      rw [hp] at h4
      omega
    | none =>
      rw [hp] at h4
      omega

/-! ## One-shot actors, breakpoints, and promise chaining

The breakpoint operations of `ContextActor` are promise-chained
asynchronous code over one-shot actors (`SourceActor`, `Breakpoint`).
JavaScript promise code on the single event-loop thread is embedded as
computations in a state monad whose state carries the observation
channels: the ordered wire events (request bodies relayed, responses
received), the dispatcher's name-to-actor map (`FirefoxProtocolImpl
._map`, a name-keyed dictionary, modeled as a `Finset` of names), and
the browser's responses (an oracle `Nat → Except String SetBpResp`,
consumed one entry per request in wire order; response fields beyond
those read by `SourceActor.addBreakpoint` are irrelevant and omitted,
e.g. a `delete` response's content is never inspected).  `bindE` is
`promise.then(onOk)`, `thenE` is the two-callback
`promise.then(onOk, onErr)`, and a rejected promise is an `err`
result.  State (the logs, the actor map) is never rolled back by a
rejection, exactly as in JavaScript. -/

/-- The fields of a `setBreakpoint` response read by
`SourceActor.addBreakpoint`: `body.actor`, `body.isPending`,
`body.actualLocation` (with its `line`). -/
structure SetBpResp where
  actor : String
  isPending : Bool
  actualLocation : Option Nat
deriving DecidableEq, Repr

/-- Wire events: a request body relayed to the transport
(`protocol.relayResponse`, with the `to` actor name and the `type`
field), and an inbound message received for an actor (response or
error). -/
inductive Ev where
  | sent (actorName : String) (rtype : String)
  | received (actorName : String)
deriving DecidableEq, Repr

structure EffState where
  events : List Ev
  actors : Finset String
  oracle : Nat → Except String SetBpResp
  step : Nat

inductive EffResult (α : Type) where
  | ok (value : α) (state : EffState)
  | err (msg : String) (state : EffState)

def Eff (α : Type) : Type := EffState → EffResult α

def pureE {α : Type} (a : α) : Eff α := fun s => EffResult.ok a s

/-- `promise.then(f)`: sequence, propagating rejection. -/
def bindE {α β : Type} (x : Eff α) (f : α → Eff β) : Eff β := fun s =>
  match x s with
  | EffResult.ok a s' => f a s'
  | EffResult.err e s' => EffResult.err e s'

/-- `promise.then(onOk, onErr)`: the two-callback form. -/
def thenE {α β : Type} (x : Eff α) (onOk : α → Eff β) (onErr : String → Eff β) :
    Eff β := fun s =>
  match x s with
  | EffResult.ok a s' => onOk a s'
  | EffResult.err e s' => onErr e s'

/-- `throw reason` / a rejected promise. -/
def throwE {α : Type} (e : String) : Eff α := fun s => EffResult.err e s

/-- `FirefoxProtocolImpl.addActor`: `this._map[actor.name] = actor`. -/
def addActorE (name : String) : Eff Unit := fun s =>
  EffResult.ok () { s with actors := insert name s.actors }

/-- `FirefoxProtocolImpl.removeActor`: `delete this._map[actor.name]`. -/
def removeActorE (name : String) : Eff Unit := fun s =>
  EffResult.ok () { s with actors := s.actors.erase name }

/-- `Actor.sendRequest` on an idle one-shot actor: the body (stamped
with `to := name`) is relayed immediately, and the returned promise
settles with the next inbound response (resolve) or error (reject) for
that actor — the oracle's entry for the current wire step. -/
def sendRequestE (name rtype : String) : Eff SetBpResp := fun s =>
  match s.oracle s.step with
  | Except.ok resp =>
    EffResult.ok resp
      { s with events := s.events ++ [Ev.sent name rtype, Ev.received name],
               step := s.step + 1 }
  | Except.error e =>
    EffResult.err e
      { s with events := s.events ++ [Ev.sent name rtype, Ev.received name],
               step := s.step + 1 }

/-- `Actor.executeOnce(action)`:
```
this.protocol.addActor(this);
return action().then((result) => { this.protocol.removeActor(this); return result; },
                     (reason) => { this.protocol.removeActor(this); throw reason; });
``` -/
def executeOnceE {α : Type} (name : String) (action : Eff α) : Eff α :=
  bindE (addActorE name) (fun _ =>
    thenE action
      (fun result => bindE (removeActorE name) (fun _ => pureE result))
      (fun reason => bindE (removeActorE name) (fun _ => throwE reason)))

/-- `Breakpoint.remove()`: `this.sendRequest({type: 'delete'})`. -/
def breakpointRemoveE (name : String) : Eff SetBpResp :=
  sendRequestE name "delete"

/-- `ContextActor.removeBreakpoints(ids)`:
```
var promise = Promise.resolve(undefined);
ids.forEach((id) => {
  var breakpoint = new Breakpoint(id, this.protocol);
  promise = promise.then(() => { return breakpoint.executeOnce(() => breakpoint.remove()); });
});
return promise;
``` -/
def removeBreakpointsE (ids : List String) : Eff Unit :=
  ids.foldl
    (fun promise id =>
      bindE promise (fun _ =>
        bindE (executeOnceE id (breakpointRemoveE id)) (fun _ => pureE ())))
    (pureE ())

/-- The per-line breakpoint entry produced by `SourceActor.addBreakpoint`. -/
structure BpEntry where
  id : Option String
  line : Nat
  verified : Bool
deriving DecidableEq, Repr

/-- `SourceActor.addBreakpoint(line)`:
```
return this.sendRequest({type: 'setBreakpoint', location: {line: line}}).then((body) => {
  var actualLine = body.actualLocation ? body.actualLocation.line : line;
  var verified = !body.isPending;
  var actor = body.actor;
  return {id: actor, line: actualLine, verified: verified};
}, (reason) => {
  return {id: undefined, line: line, verified: false};
});
``` -/
def addBreakpointE (sourceName : String) (line : Nat) : Eff BpEntry :=
  thenE (sendRequestE sourceName "setBreakpoint")
    (fun body =>
      pureE { id := some body.actor,
              line := match body.actualLocation with
                      | some actualLine => actualLine
                      | none => line,
              verified := !body.isPending })
    (fun _reason => pureE { id := none, line := line, verified := false })

/-- `lines.map((line) => source.addBreakpoint(line))` followed by
`Promise.all`: every `sendRequest` targets the same one-shot
`SourceActor`, whose single-outstanding-request queue
(`Actor.sendRequest` / `Actor.processResponse`, see the `ActorState`
model and `claim1_actor_fifo`) relays the first request immediately,
queues the rest, and relays each next request as the previous response
or error arrives — so on the wire, and in settlement order, the
composite is the sequential composition of the per-line round trips in
list order, and `Promise.all` collects the per-line results in that
order. -/
def addBreakpointAllE (sourceName : String) : List Nat → Eff (List BpEntry)
  | [] => pureE []
  | line :: rest =>
    bindE (addBreakpointE sourceName line) (fun entry =>
      bindE (addBreakpointAllE sourceName rest) (fun entries =>
        pureE (entry :: entries)))

/-- `ContextActor.addBreakpoints(sourceId, lines)`:
```
var source = new SourceActor(sourceId, this.protocol);
return source.executeOnce(() => {
  var promises = lines.map((line) => { return source.addBreakpoint(line); });
  return Promise.all(promises);
});
``` -/
def addBreakpointsE (sourceId : String) (lines : List Nat) : Eff (List BpEntry) :=
  executeOnceE sourceId (addBreakpointAllE sourceId lines)

/-- The remote slice of `FirefoxDebugSession.setBreakPointsRequest`
after the source id and the resume gate have been awaited
(`Promise.all([this.getSourceId(path), this._resumeAllowedPromise])`):
```
... .then((results) => {
  sourceId = results[0];
  var oldBreakpointsIds = this._breakPointsIds[path];
  if (oldBreakpointsIds && oldBreakpointsIds.length > 0) {
    return this._session.removeBreakpoints(oldBreakpointsIds);
  }
}).then(() => {
  ... return this._session.addBreakpoints(sourceId, lines).then(...);
})
``` -/
def setBreakpointsPipelineE (oldIds : List String) (sourceId : String)
    (lines : List Nat) : Eff (List BpEntry) :=
  bindE (if oldIds.length > 0 then removeBreakpointsE oldIds else pureE ())
    (fun _ => addBreakpointsE sourceId lines)

/-- Events recorded by a finished computation (state is retained on
both the resolution and the rejection path). -/
def eventsOf {α : Type} (r : EffResult α) : List Ev :=
  match r with
  | EffResult.ok _ s => s.events
  | EffResult.err _ s => s.events

/-- Actor map of a finished computation. -/
def actorsOf {α : Type} (r : EffResult α) : Finset String :=
  match r with
  | EffResult.ok _ s => s.actors
  | EffResult.err _ s => s.actors

/-! ### Behavior of the breakpoint pipeline -/

theorem finset_erase_insert_self (a : String) (A : Finset String) :
    (insert a A).erase a = A.erase a := by
  ext x
  simp only [Finset.mem_erase, Finset.mem_insert]
  constructor
  · rintro ⟨hx, hx2 | hx2⟩
    · exact absurd hx2 hx
    · exact ⟨hx, hx2⟩
  · rintro ⟨hx, hx2⟩
    exact ⟨hx, Or.inr hx2⟩

/-- The sequential unrolling of the `forEach` promise chain of
`removeBreakpoints`: each id's `executeOnce(remove)` runs strictly
after the previous one resolves. -/
def removeSeqE : List String → Eff Unit
  | [] => pureE ()
  | id :: rest =>
    bindE (executeOnceE id (breakpointRemoveE id)) (fun _ => removeSeqE rest)

theorem removeBreakpoints_foldl (ids : List String) :
    ∀ (p : Eff Unit) (s : EffState),
      (ids.foldl
        (fun promise id =>
          bindE promise (fun _ =>
            bindE (executeOnceE id (breakpointRemoveE id)) (fun _ => pureE ()))) p) s
      = (bindE p (fun _ => removeSeqE ids)) s := by
  induction ids with
  | nil =>
    intro p s
    simp only [List.foldl_nil, bindE, removeSeqE]
    cases hps : p s with
    | ok a s' =>
      cases a
      rfl
    | err e s' => rfl
  | cons id rest ih =>
    intro p s
    simp only [List.foldl_cons]
    rw [ih]
    simp only [bindE, removeSeqE]
    cases hps : p s with
    | ok a s' =>
      cases hex : executeOnceE id (breakpointRemoveE id) s' with
      | ok b s'' => simp [hex, pureE]
      | err e s'' => simp [hex]
    | err e s' => rfl

theorem removeBreakpointsE_eq_seq (ids : List String) (s : EffState) :
    removeBreakpointsE ids s = removeSeqE ids s := by
  unfold removeBreakpointsE
  rw [removeBreakpoints_foldl]
  simp only [bindE, pureE]

theorem removeSeqE_spec :
    ∀ (ids : List String) (ev : List Ev) (A : Finset String)
      (oracle : Nat → Except String SetBpResp) (k : Nat),
      (∀ n, n < ids.length → ∃ r, oracle (k + n) = Except.ok r) →
      removeSeqE ids ⟨ev, A, oracle, k⟩ =
        EffResult.ok ()
          ⟨ev ++ ids.flatMap (fun id => [Ev.sent id "delete", Ev.received id]),
           ids.foldl (fun B id => B.erase id) A, oracle, k + ids.length⟩ := by
  intro ids
  induction ids with
  | nil =>
    intro ev A oracle k hok
    simp [removeSeqE, pureE]
  | cons id rest ih =>
    intro ev A oracle k hok
    rcases hok 0 (by simp) with ⟨r, hr⟩
    rw [Nat.add_zero] at hr
    have hrec := ih (ev ++ [Ev.sent id "delete", Ev.received id]) (A.erase id) oracle (k + 1)
      (fun n hn => by
        have harith : k + 1 + n = k + (n + 1) := by omega
        rw [harith]
        exact hok (n + 1) (by simpa using Nat.succ_lt_succ hn))
    simp only [removeSeqE, bindE, executeOnceE, thenE, addActorE, removeActorE,
      breakpointRemoveE, sendRequestE, pureE, hr]
    rw [finset_erase_insert_self]
    rw [hrec]
    simp only [List.flatMap_cons, List.foldl_cons, List.append_assoc,
      List.cons_append, List.nil_append, List.length_cons]
    have : k + 1 + rest.length = k + (rest.length + 1) := by omega
    rw [this]

theorem removeBreakpointsE_spec (ids : List String) (ev : List Ev) (A : Finset String)
    (oracle : Nat → Except String SetBpResp) (k : Nat)
    (hok : ∀ n, n < ids.length → ∃ r, oracle (k + n) = Except.ok r) :
    removeBreakpointsE ids ⟨ev, A, oracle, k⟩ =
      EffResult.ok ()
        ⟨ev ++ ids.flatMap (fun id => [Ev.sent id "delete", Ev.received id]),
         ids.foldl (fun B id => B.erase id) A, oracle, k + ids.length⟩ := by
  rw [removeBreakpointsE_eq_seq]
  exact removeSeqE_spec ids ev A oracle k hok

theorem addBreakpointAllE_spec (sourceId : String) :
    ∀ (lines : List Nat) (ev : List Ev) (A : Finset String)
      (oracle : Nat → Except String SetBpResp) (k : Nat),
      addBreakpointAllE sourceId lines ⟨ev, A, oracle, k⟩ =
        EffResult.ok
          ((List.enumFrom k lines).map (fun p =>
            match oracle p.1 with
            | Except.ok body =>
              { id := some body.actor,
                line := match body.actualLocation with
                        | some actualLine => actualLine
                        | none => p.2,
                verified := !body.isPending }
            | Except.error _ => { id := none, line := p.2, verified := false }))
          ⟨ev ++ lines.flatMap (fun _ => [Ev.sent sourceId "setBreakpoint",
                                          Ev.received sourceId]),
           A, oracle, k + lines.length⟩ := by
  intro lines
  induction lines with
  | nil =>
    intro ev A oracle k
    simp [addBreakpointAllE, pureE, List.enumFrom]
  | cons line rest ih =>
    intro ev A oracle k
    have hrec := ih (ev ++ [Ev.sent sourceId "setBreakpoint", Ev.received sourceId])
      A oracle (k + 1)
    rcases hr : oracle k with e | r
    · simp only [addBreakpointAllE, bindE, addBreakpointE, thenE, sendRequestE,
        pureE, hr]
      rw [hrec]
      simp only [List.enumFrom_cons, List.map_cons, hr, List.flatMap_cons,
        List.append_assoc, List.cons_append, List.nil_append, List.length_cons]
      have : k + 1 + rest.length = k + (rest.length + 1) := by omega
      rw [this]
    · simp only [addBreakpointAllE, bindE, addBreakpointE, thenE, sendRequestE,
        pureE, hr]
      rw [hrec]
      simp only [List.enumFrom_cons, List.map_cons, hr, List.flatMap_cons,
        List.append_assoc, List.cons_append, List.nil_append, List.length_cons]
      have : k + 1 + rest.length = k + (rest.length + 1) := by omega
      rw [this]

/-! ### Claim C6: per-line breakpoint results -/

/-- **C6.** `addBreakpoints(sourceId, lines)` settles successfully for
every oracle (per-line failures are never propagated to the caller)
and returns exactly one entry per requested line, in order: for the
`i`-th line, if the `i`-th `setBreakpoint` response is a success `body`
the entry is `{id: body.actor, line: body.actualLocation?.line ??
line, verified: !body.isPending}` — verified is true exactly when the
server did not report the breakpoint as pending, and the line is the
server's corrected location when one is reported; if the `i`-th
request fails, the entry is `{id: none, line: original line,
verified: false}`.  (The final state also shows the one-shot
`SourceActor` deregistered and one request/response round trip per
line, in list order.) -/
theorem claim6_addBreakpoints_entries (sourceId : String) (lines : List Nat)
    (oracle : Nat → Except String SetBpResp) (A : Finset String) :
    addBreakpointsE sourceId lines ⟨[], A, oracle, 0⟩ =
      EffResult.ok
        ((List.enumFrom 0 lines).map (fun p =>
          match oracle p.1 with
          | Except.ok body =>
            { id := some body.actor,
              line := match body.actualLocation with
                      | some actualLine => actualLine
                      | none => p.2,
              verified := !body.isPending }
          | Except.error _ => { id := none, line := p.2, verified := false }))
        ⟨lines.flatMap (fun _ => [Ev.sent sourceId "setBreakpoint",
                                  Ev.received sourceId]),
         A.erase sourceId, oracle, lines.length⟩ := by
  unfold addBreakpointsE executeOnceE
  simp only [bindE, addActorE, thenE, removeActorE, pureE]
  rw [addBreakpointAllE_spec]
  simp only [List.nil_append, Nat.zero_add]
  rw [finset_erase_insert_self]

/-! ### Claim C5: removals are sequential and complete before adds -/

/-- **C5.** `removeBreakpoints(ids)` issues exactly one `delete`
request per id, in list order, with each delete's response received
before the next delete is transmitted; and in the `setBreakpoints`
pipeline for a path, every removal of the old breakpoint ids completes
(response received) before any new `setBreakpoint` request is
transmitted — the wire trace is exactly the delete round trips in id
order followed by the add round trips in line order. -/
theorem claim5_removals_sequential_before_adds (oldIds : List String)
    (sourceId : String) (lines : List Nat)
    (oracle : Nat → Except String SetBpResp) (A : Finset String)
    (hok : ∀ n, n < oldIds.length → ∃ r, oracle n = Except.ok r) :
    eventsOf (setBreakpointsPipelineE oldIds sourceId lines ⟨[], A, oracle, 0⟩) =
      oldIds.flatMap (fun id => [Ev.sent id "delete", Ev.received id]) ++
      lines.flatMap (fun _ => [Ev.sent sourceId "setBreakpoint",
                               Ev.received sourceId]) := by
  unfold setBreakpointsPipelineE
  cases oldIds with
  | nil =>
    simp only [List.length_nil, gt_iff_lt, Nat.lt_irrefl, if_false, bindE, pureE]
    unfold addBreakpointsE executeOnceE
    simp only [bindE, addActorE, thenE, removeActorE, pureE]
    rw [addBreakpointAllE_spec]
    simp [eventsOf]
  | cons id0 rest0 =>
    have hlen : (id0 :: rest0).length > 0 := by simp
    rw [if_pos hlen]
    have hrem := removeBreakpointsE_spec (id0 :: rest0) [] A oracle 0
      (fun n hn => by simpa using hok n (by simpa using hn))
    simp only [bindE, hrem]
    unfold addBreakpointsE executeOnceE
    simp only [bindE, addActorE, thenE, removeActorE, pureE]
    rw [addBreakpointAllE_spec]
    simp [eventsOf, List.nil_append, List.append_assoc]

/-- Witness for C5: two old breakpoint ids and two new lines with an
always-succeeding oracle; the wire trace is the two delete round trips
in order followed by the two add round trips. -/
theorem claim5_removals_sequential_before_adds_witness :
    eventsOf (setBreakpointsPipelineE ["b1", "b2"] "src1" [2, 3]
        ⟨[], ∅, (fun _ => Except.ok ⟨"a", false, none⟩), 0⟩) =
      [Ev.sent "b1" "delete", Ev.received "b1",
       Ev.sent "b2" "delete", Ev.received "b2",
       Ev.sent "src1" "setBreakpoint", Ev.received "src1",
       Ev.sent "src1" "setBreakpoint", Ev.received "src1"] := by
  have h := claim5_removals_sequential_before_adds ["b1", "b2"] "src1" [2, 3]
    (fun _ => Except.ok ⟨"a", false, none⟩) ∅
    (fun n _ => ⟨⟨"a", false, none⟩, rfl⟩)
  exact h.trans rfl

/-! ### Claim C7: `executeOnce` always deregisters the one-shot actor -/

/-- The shape of every one-shot operation passed to `executeOnce` in
the source (`Breakpoint.remove`, `SourceActor.addBreakpoint`,
`EnvironmentActor.getBindings`, `GripActor.getPrototypeAndProperties`):
exactly one `sendRequest`, followed by a pure continuation `k` applied
to the settlement (a resolved continuation yields the result, a
rejected one re-throws). -/
def singleRequestOp {β : Type} (name rtype : String)
    (k : Except String SetBpResp → Except String β) : Eff β :=
  thenE (sendRequestE name rtype)
    (fun resp =>
      match k (Except.ok resp) with
      | Except.ok b => pureE b
      | Except.error e => throwE e)
    (fun e =>
      match k (Except.error e) with
      | Except.ok b => pureE b
      | Except.error e' => throwE e')

/-- **C7.** For every one-shot actor, `executeOnce(op)` first registers
the actor in the dispatcher's name-to-actor map, runs `op` (one
`sendRequest` plus a pure continuation), and removes the actor from
the map when `op`'s promise settles, on both the success and the
failure path: for every initial map, every oracle and every
continuation, the final actor map is the initial map with the actor's
name removed — in particular the map no longer contains that actor's
name, whatever the outcome of `op`. -/
theorem claim7_executeOnce_deregisters {β : Type} (name rtype : String)
    (k : Except String SetBpResp → Except String β) (s : EffState) :
    actorsOf (executeOnceE name (singleRequestOp name rtype k) s)
        = s.actors.erase name ∧
    name ∉ actorsOf (executeOnceE name (singleRequestOp name rtype k) s) := by
  have hmain : actorsOf (executeOnceE name (singleRequestOp name rtype k) s)
      = s.actors.erase name := by
    unfold executeOnceE singleRequestOp
    simp only [bindE, addActorE, thenE, sendRequestE]
    rcases hr : s.oracle s.step with e | r
    · rcases hk : k (Except.error e) with e' | b <;>
        simp [hk, pureE, throwE, removeActorE, actorsOf, finset_erase_insert_self]
    · rcases hk : k (Except.ok r) with e' | b <;>
        simp [hk, pureE, throwE, removeActorE, actorsOf, finset_erase_insert_self]
  exact ⟨hmain, hmain ▸ Finset.not_mem_erase name s.actors⟩

/-! ## Grip formatting: `ContextActor.formatGrip` / `getActor` /
`formatReturnValue`

Source:

```
private formatGrip(value) {
  if (typeof value !== 'object' || value === null) { return JSON.stringify(value); }
  switch (value.type) {
    case 'null': case 'undefined': case 'Infinity': case '-Infinity':
    case 'NaN': case '-0':
      return value.type;
    case 'longString':
      return value.initial;
  }
  return `[object ${value.class}]`;
}
private getActor(value) {
  return typeof value === 'object' && value !== null && value.type === 'object' ?
    value.actor : undefined;
}
private formatReturnValue(value) {
  if (value.terminated) { return {display: '(terminated)'}; }
  if (value.throw) {
    var s = this.formatGrip(value.throw);
    return {display: `(error: ${s})`, id: this.getActor(value.throw)};
  }
  return {display: this.formatGrip(value.return), id: this.getActor(value.return)};
}
```

A grip is a JSON value from the wire: a non-object primitive (modeled
with the text `JSON.stringify` produces for it — stringification of
primitives is the external JSON library), the JS `null` (of type
`'object'` but stringified to `"null"`), or an object with a `type`
field and the further fields read by the formatter (`class`, `actor`,
`initial`; a well-formed grip of the relevant kind carries the fields
the formatter reads). -/

inductive Grip where
  | prim (jsonText : String)
  | jsNull
  | obj (gripType : String) (cls : String) (actorId : String) (initial : String)
deriving DecidableEq, Repr

def formatGrip : Grip → String
  | Grip.prim jsonText => jsonText
  | Grip.jsNull => "null"
  | Grip.obj gripType cls _ initial =>
    if gripType = "null" ∨ gripType = "undefined" ∨ gripType = "Infinity" ∨
       gripType = "-Infinity" ∨ gripType = "NaN" ∨ gripType = "-0" then
      gripType
    else if gripType = "longString" then
      initial
    else
      "[object " ++ cls ++ "]"

def getActor : Grip → Option String
  | Grip.obj gripType _ actorId _ =>
    if gripType = "object" then some actorId else none
  | _ => none

/-- Is the grip a remote object (`{type: 'object', actor: ...}`)? -/
def isRemoteObject : Grip → Bool
  | Grip.obj gripType _ _ _ => gripType = "object"
  | _ => false

/-- The `frameFinished` payload of a `clientEvaluated` pause:
`terminated` models the truthiness of `value.terminated`; `thrown`
models `value.throw` (`none` when absent/falsy); `ret` is
`value.return`. -/
structure FrameFinished where
  terminated : Bool
  thrown : Option Grip
  ret : Grip
deriving DecidableEq, Repr

structure ResultVariable where
  display : String
  id : Option String
deriving DecidableEq, Repr

def formatReturnValue (value : FrameFinished) : ResultVariable :=
  if value.terminated then
    { display := "(terminated)", id := none }
  else
    match value.thrown with
    | some thrownGrip =>
      { display := "(error: " ++ formatGrip thrownGrip ++ ")",
        id := getActor thrownGrip }
    | none =>
      { display := formatGrip value.ret, id := getActor value.ret }

/-- **C8.** The translation of an evaluate completion payload
(`frameFinished`): a terminated target yields display `"(terminated)"`
with no id; a thrown value yields display `"(error: <formatted
grip>)"`, carrying the thrown object's actor id exactly when the
thrown value is a remote object; otherwise the result is the return
value's formatted grip and its actor id.  Grip formatting maps
primitives to their JSON text; the special tags `null` / `undefined` /
`Infinity` / `-Infinity` / `NaN` / `-0` to their tag; long strings to
their initial excerpt; and remote objects to `"[object <class>]"`
(with `getActor` yielding their actor id). -/
theorem claim8_formatReturnValue (value : FrameFinished) (thrownGrip : Grip)
    (tag cls actorId initial jsonText : String) :
    (value.terminated = true →
      formatReturnValue value = { display := "(terminated)", id := none }) ∧
    (value.terminated = false → value.thrown = some thrownGrip →
      formatReturnValue value
          = { display := "(error: " ++ formatGrip thrownGrip ++ ")",
              id := getActor thrownGrip } ∧
        ((getActor thrownGrip).isSome ↔ isRemoteObject thrownGrip = true)) ∧
    (value.terminated = false → value.thrown = none →
      formatReturnValue value
        = { display := formatGrip value.ret, id := getActor value.ret }) ∧
    formatGrip (Grip.prim jsonText) = jsonText ∧
    ((tag = "null" ∨ tag = "undefined" ∨ tag = "Infinity" ∨ tag = "-Infinity" ∨
      tag = "NaN" ∨ tag = "-0") →
      formatGrip (Grip.obj tag cls actorId initial) = tag) ∧
    formatGrip (Grip.obj "longString" cls actorId initial) = initial ∧
    formatGrip (Grip.obj "object" cls actorId initial) = "[object " ++ cls ++ "]" ∧
    getActor (Grip.obj "object" cls actorId initial) = some actorId := by
  refine ⟨?_, ?_, ?_, rfl, ?_, ?_, ?_, ?_⟩
  · intro ht
    simp [formatReturnValue, ht]
  · intro ht hth
    constructor
    · simp [formatReturnValue, ht, hth]
    · cases thrownGrip with
      | prim t => simp [getActor, isRemoteObject]
      | jsNull => simp [getActor, isRemoteObject]
      | obj gripType c a i =>
        by_cases hobj : gripType = "object" <;>
          simp [getActor, isRemoteObject, hobj]
  · intro ht hth
    simp [formatReturnValue, ht, hth]
  · intro htag
    have hne1 : ¬ (tag = "longString") := by
      rcases htag with h | h | h | h | h | h <;> simp [h]
    rcases htag with h | h | h | h | h | h <;> simp [formatGrip, h]
  · simp [formatGrip]
  · simp [formatGrip]
  · simp [getActor]

/-- Witness for C8: a thrown remote `Error` object grip resolves to
`{display: "(error: [object Error])", id: "obj1"}`; a terminated
target to `"(terminated)"`; a normal numeric return to its JSON
text. -/
theorem claim8_formatReturnValue_witness :
    formatReturnValue ⟨false, some (Grip.obj "object" "Error" "obj1" ""), Grip.prim "2"⟩
        = { display := "(error: [object Error])", id := some "obj1" } ∧
    formatReturnValue ⟨true, none, Grip.prim "2"⟩
        = { display := "(terminated)", id := none } ∧
    formatReturnValue ⟨false, none, Grip.prim "2"⟩
        = { display := "2", id := none } := by
  refine ⟨?_, ?_, ?_⟩
  · have h := ((claim8_formatReturnValue
      ⟨false, some (Grip.obj "object" "Error" "obj1" ""), Grip.prim "2"⟩
      (Grip.obj "object" "Error" "obj1" "") "null" "Error" "obj1" "" "2").2.1
        rfl rfl).1
    exact h.trans (by decide)
  · exact (claim8_formatReturnValue ⟨true, none, Grip.prim "2"⟩
      (Grip.prim "2") "null" "" "" "" "2").1 rfl
  · have h := (claim8_formatReturnValue ⟨false, none, Grip.prim "2"⟩
      (Grip.prim "2") "null" "" "" "" "2").2.2.1 rfl rfl
    exact h.trans (by decide)

/-! ## `newSource` handling and the URL/path resolver

Source (`ContextActor.processNotification`, case `'newSource'`):

```
var url = body.source.url;
if (!url) { return true; }                       // ignoring scripts without url
var path = this.protocol.urlHelper.convertToLocal(url);
if (!path) { return true; }                      // ignoring non-project scripts
this.protocol.notifySession('source', {path: path, url: url, id: body.source.actor});
return true;
```

and the two resolver strategies (`ffUrlHelper.ts`):

```
LocalURLHelper.convertToLocal(url_string) {
  if (url_string.indexOf('file:///') !== 0) { return url_string; }
  return url_string.substring('file://'.length);
}
HttpURLHelper.convertToLocal(url_string) {
  var parsed = url.parse(url_string);
  var pathname = parsed.pathname;
  return path.join(this.webRoot, pathname.substring(1));
}
```

Strings are modeled as `List Char` here so that prefix/drop reasoning
stays elementary; `Str` values written with `…".toList` are the
corresponding string literals. -/

abbrev Str := List Char

/-- `LocalURLHelper.convertToLocal`. -/
def localConvertToLocal (urlString : Str) : Str :=
  if ¬ (("file:///".toList).isPrefixOf urlString) then urlString
  else urlString.drop ("file://".toList).length

/-- Model of the external `Node url.parse(u).pathname` for the URLs
arising here (absolute URLs with an authority): scan to the `"://"`
separator, then the pathname runs from the first `'/'` after the
authority up to (excluding) the first `'?'` or `'#'`; when the URL has
no `'/'` after the authority, `pathname` is `null` (`none`). -/
def afterSchemeSep : Str → Option Str
  | [] => none
  | ':' :: '/' :: '/' :: rest => some rest
  | _ :: rest => afterSchemeSep rest

def urlPathname (urlString : Str) : Option Str :=
  match afterSchemeSep urlString with
  | none => none
  | some hostRest =>
    match hostRest.dropWhile (fun c => c != '/') with
    | [] => none
    | p => some (p.takeWhile (fun c => (c != '?') && (c != '#')))

/-- Model of the external `Node path.join(a, b)` for the shapes arising
here: concatenation with a single `'/'` separator; `"."` when both
parts are empty; no `'.'`/`'..'` normalization occurs for the inputs
of the claims below. -/
def pathJoin (a b : Str) : Str :=
  if a.isEmpty && b.isEmpty then ".".toList
  else if b.isEmpty then a
  else if a.isEmpty then b
  else if a.getLast? = some '/' then a ++ b
  else a ++ '/' :: b

/-- `HttpURLHelper.convertToLocal`.  (On a URL whose parsed `pathname`
is `null` the source would crash on `pathname.substring(1)`; that
branch is unreachable for the URLs considered below and is mapped to
the empty string here.) -/
def httpConvertToLocal (webRoot : Str) (urlString : Str) : Str :=
  match urlPathname urlString with
  | some pathname => pathJoin webRoot (pathname.drop 1)
  | none => []

/-- `body.source` as read by the `newSource` handler: `url` is `none`
for a script without a URL. -/
structure SourceNotification where
  url : Option Str
  actorId : Str
deriving DecidableEq, Repr

/-- The `{path, url, id}` record published to the Bridge via
`notifySession('source', …)`. -/
structure SourcePublication where
  path : Str
  url : Str
  id : Str
deriving DecidableEq, Repr

/-- The `newSource` case of `ContextActor.processNotification`:
`none` means the notification is ignored (no Bridge publication). -/
def processNewSource (convertToLocal : Str → Str) (sourceBody : SourceNotification) :
    Option SourcePublication :=
  match sourceBody.url with
  | none => none
  | some u =>
    if u.isEmpty then none
    else if (convertToLocal u).isEmpty then none
    else some ⟨convertToLocal u, u, sourceBody.actorId⟩

/-- **C9, counterexample.** The claim states that a source whose URL
does not resolve to a local path under the project root is ignored
with no publication to the Bridge.  The code's guard for this
(`if (!path) return true; // ignoring non-project scripts`) can never
fire because both resolver strategies always return a non-empty
string.  Concretely: under the HTTP strategy with web root `/proj`,
the URL `http://files.example.org/a/b.js` — a URL on a foreign host,
outside the configured web root — is published to the Bridge with the
fabricated path `/proj/a/b.js`; under the local-file strategy the same
URL is published with the URL string itself as the "path". -/
theorem claim9_counterexample :
    (processNewSource (httpConvertToLocal ("/proj".toList))
        ⟨some ("http://files.example.org/a/b.js".toList), "src9".toList⟩
      = some ⟨"/proj/a/b.js".toList,
              "http://files.example.org/a/b.js".toList, "src9".toList⟩) ∧
    (processNewSource localConvertToLocal
        ⟨some ("http://files.example.org/a/b.js".toList), "src9".toList⟩
      = some ⟨"http://files.example.org/a/b.js".toList,
              "http://files.example.org/a/b.js".toList, "src9".toList⟩) := by
  constructor
  · decide
  · decide

/-- **C9, amended.** On a `newSource` notification, a source lacking a
URL (absent or empty) is ignored; *every* source with a URL is
published to the Bridge as `{path, url, actor id}` with `path` the
resolver's local translation of the URL — the translation is never
empty, so the handler's "ignoring non-project scripts" guard is dead
code and no URL-bearing source is ever ignored, even when its URL does
not correspond to a file under the project root.  First conjunct: the
full behavior under the local-file strategy.  Second conjunct: the
local translation of a non-empty URL is never empty.  Third conjunct:
under the HTTP strategy (non-empty web root, URL with a parsed
pathname) the source is likewise always published, with the pathname
joined under the web root. -/
theorem isPrefixOf_length_le :
    ∀ (p u : List Char), p.isPrefixOf u = true → p.length ≤ u.length := by
  intro p
  induction p with
  | nil =>
    intro u h
    simp
  | cons a p ih =>
    intro u h
    cases u with
    | nil => simp [List.isPrefixOf] at h
    | cons b u =>
      simp only [List.isPrefixOf, Bool.and_eq_true] at h
      have := ih u h.2
      simp only [List.length_cons]
      omega

theorem claim9_amended_all_url_sources_published (sourceBody : SourceNotification)
    (webRoot : Str) :
    (processNewSource localConvertToLocal sourceBody =
      match sourceBody.url with
      | none => none
      | some u =>
        if u.isEmpty then none
        else some ⟨localConvertToLocal u, u, sourceBody.actorId⟩) ∧
    (∀ u : Str, u.isEmpty = false → (localConvertToLocal u).isEmpty = false) ∧
    (∀ u pn : Str, u.isEmpty = false → urlPathname u = some pn →
      webRoot.isEmpty = false →
      processNewSource (httpConvertToLocal webRoot) ⟨some u, sourceBody.actorId⟩ =
        some ⟨pathJoin webRoot (pn.drop 1), u, sourceBody.actorId⟩) := by
  have hlocal : ∀ u : Str, u.isEmpty = false → (localConvertToLocal u).isEmpty = false := by
    intro u hu
    unfold localConvertToLocal
    by_cases hp : ("file:///".toList).isPrefixOf u
    · rw [if_neg (by simpa using hp)]
      have hlen : ("file:///".toList).length ≤ u.length :=
        isPrefixOf_length_le _ u hp
      have h8 : ("file:///".toList).length = 8 := by decide
      have h7 : ("file://".toList).length = 7 := by decide
      rw [h7]
      have hd : (u.drop 7).length = u.length - 7 := List.length_drop _ _
      rw [List.isEmpty_eq_false]
      intro hnil
      rw [hnil] at hd
      simp at hd
      omega
    · rw [if_pos (by simpa using hp)]
      exact hu
  have hjoin : ∀ b : Str, webRoot.isEmpty = false → (pathJoin webRoot b).isEmpty = false := by
    intro b hw
    rw [List.isEmpty_eq_false] at hw ⊢
    unfold pathJoin
    split_ifs with h1 h2 h3 h4
    · simp
    · exact hw
    · exact absurd (List.isEmpty_iff.mp h3) hw
    · intro hcontra
      exact hw (List.append_eq_nil.mp hcontra).1
    · intro hcontra
      exact hw (List.append_eq_nil.mp hcontra).1
  refine ⟨?_, hlocal, ?_⟩
  · unfold processNewSource
    cases hurl : sourceBody.url with
    | none => rfl
    | some u =>
      dsimp only
      by_cases hu : u.isEmpty = true
      · rw [if_pos hu, if_pos hu]
      · have hu' : u.isEmpty = false := Bool.eq_false_iff.mpr hu
        rw [if_neg hu, if_neg hu]
        rw [if_neg (by simp [hlocal u hu'])]
  · intro u pn hu hpn hw
    have hconv : httpConvertToLocal webRoot u = pathJoin webRoot (pn.drop 1) := by
      unfold httpConvertToLocal
      rw [hpn]
    show (match (some u : Option Str) with
      | none => (none : Option SourcePublication)
      | some u =>
        if u.isEmpty then none
        else if (httpConvertToLocal webRoot u).isEmpty then none
        else some (SourcePublication.mk (httpConvertToLocal webRoot u) u
          sourceBody.actorId)) = _
    simp only [hconv]
    have hne : ¬ ((pathJoin webRoot (pn.drop 1)).isEmpty = true) := by
      rw [hjoin (pn.drop 1) hw]
      simp
    rw [if_neg (by simp [hu]), if_neg hne]

/-- Witness for the amended C9: a `file:///` URL publishes with its
local path; the local translation of a non-`file:` URL is non-empty
(so the non-project guard cannot fire); an HTTP URL under the base
publishes with the pathname joined under the web root. -/
theorem claim9_amended_all_url_sources_published_witness :
    (processNewSource localConvertToLocal
        ⟨some ("file:///proj/app.js".toList), "srcA".toList⟩
      = some ⟨"/proj/app.js".toList, "file:///proj/app.js".toList, "srcA".toList⟩) ∧
    (localConvertToLocal ("http://h/x.js".toList)).isEmpty = false ∧
    (processNewSource (httpConvertToLocal ("/proj".toList))
        ⟨some ("http://localhost:8000/app.js".toList), "srcA".toList⟩
      = some ⟨"/proj/app.js".toList, "http://localhost:8000/app.js".toList,
              "srcA".toList⟩) := by
  have h := claim9_amended_all_url_sources_published
    ⟨some ("file:///proj/app.js".toList), "srcA".toList⟩ ("/proj".toList)
  refine ⟨?_, ?_, ?_⟩
  · exact h.1.trans (by decide)
  · exact h.2.1 ("http://h/x.js".toList) (by decide)
  · exact (h.2.2 ("http://localhost:8000/app.js".toList) ("/app.js".toList)
      (by decide) (by decide) (by decide)).trans (by decide)

/-! ## `FirefoxDebugSession.disconnectRequest`

Source (`ffDebug.ts`):

```
protected disconnectRequest(response, args) {
  this._pausedCapability.reject('stopping');
  Object.keys(this._pendingSourceCapabilities).forEach((key) => {
    if (this._pendingSourceCapabilities[key]) {
      this._pendingSourceCapabilities.reject('stopping');
    }
  });
  this.sendEvent(new OutputEvent('stopping'));
  this._session.stop();
  this._session = null;
  this.sendResponse(response);
  this.shutdown();
}
```

The resume gate (`_pausedCapability`) is rejected first.  The loop over
the pending source-resolution capabilities, however, invokes
`this._pendingSourceCapabilities.reject(...)` — a member access on the
dictionary itself (created with `Object.create(null)`, so it has no
`reject` member) instead of `this._pendingSourceCapabilities[key]
.reject(...)`.  Calling the resulting `undefined` raises a `TypeError`
on the first iteration whose guard passes; the guard
`this._pendingSourceCapabilities[key]` is always truthy, because every
stored entry is a `PromiseCapability` object.  So with at least one
pending source the loop raises on its first iteration, no per-key
capability is ever rejected, and the rest of `disconnectRequest`
(including `sendResponse` and `shutdown`) is skipped.  No statement of
`disconnectRequest` (nor of `FirefoxSession.stop`, which only kills
the spawned process) reaches `ContextActor._evaluateCapabilty`, so a
pending evaluate future is never rejected either. -/

inductive JsOutcome (α : Type) where
  | ok (value : α)
  | typeError (msg : String)
deriving DecidableEq, Repr

/-- The `forEach` loop over `Object.keys(this._pendingSourceCapabilities)`,
returning the list of per-key capabilities it rejected: with no pending
entries the loop body never runs; with at least one entry the first
iteration evaluates the missing `reject` member of the dictionary and
raises a `TypeError`. -/
def disconnectRejectPendingSources (pendingKeys : List String) :
    JsOutcome (List String) :=
  match pendingKeys with
  | [] => JsOutcome.ok []
  | _ :: _ =>
    JsOutcome.typeError "this._pendingSourceCapabilities.reject is not a function"

structure OutstandingWaits where
  pendingSourcePaths : List String
  evaluatePending : Bool
deriving DecidableEq, Repr

structure DisconnectEffect where
  resumeGateRejected : Bool
  rejectedSourcePaths : List String
  evaluateRejected : Bool
  raised : Option String
deriving DecidableEq, Repr

/-- The effect of `disconnectRequest` on the outstanding waits. -/
def disconnectRequest (waits : OutstandingWaits) : DisconnectEffect :=
  match disconnectRejectPendingSources waits.pendingSourcePaths with
  | JsOutcome.ok rejected =>
    { resumeGateRejected := true, rejectedSourcePaths := rejected,
      evaluateRejected := false, raised := none }
  | JsOutcome.typeError msg =>
    { resumeGateRejected := true, rejectedSourcePaths := [],
      evaluateRejected := false, raised := some msg }

/-- **C10 (code bug).** The claim states that after `disconnect`, every
previously-unresolved outstanding wait — the resume gate, all pending
source-resolution futures, and pending evaluate futures — is rejected
with a terminal stopping condition.  Evaluating the code at a
disconnect with one pending source-resolution future (path
`"/proj/a.md"`) and a pending evaluate: the resume gate is indeed
rejected, but no pending source capability is rejected (the loop
raises a `TypeError` through the misspelled member access instead),
and the pending evaluate future is not rejected — both remain
unsettled forever, contradicting the claim. -/
theorem claim10_disconnect_leaves_waits_unsettled :
    (disconnectRequest ⟨["/proj/a.md"], true⟩).resumeGateRejected = true ∧
    (disconnectRequest ⟨["/proj/a.md"], true⟩).rejectedSourcePaths = [] ∧
    (disconnectRequest ⟨["/proj/a.md"], true⟩).evaluateRejected = false ∧
    (disconnectRequest ⟨["/proj/a.md"], true⟩).raised
      = some "this._pendingSourceCapabilities.reject is not a function" := by
  refine ⟨rfl, rfl, rfl, rfl⟩
